import Mathlib

/-!
Verification development for a flat tree store ("editor with mixins").

The program keeps a hierarchical document in three flat maps:
values (key to flat value), parentKeys (key to parent key) and state
(holding an updateCount).  Node types (text leaf, wrapped node, array
node, root) flatten nested JSON into these maps and read it back.

The shallow embedding below follows the source file closely:

* a key is either the reserved root key or a generated key
  encoding a type name and a per-process sequence number;
* the Yjs maps become association lists with get/set semantics;
* exceptions (invariant failures) become an explicit error type, and
  every mutating operation returns the store at the point of the
  throw, mirroring the fact that a thrown JS exception does not roll
  back preceding Y.Map writes;
* the mixin builders (TextType, WrappedNode, ArrayNode, RootType)
  become one inductive of node-type shapes together with functions
  defined by recursion over it.
-/

namespace EditorWithMixins

/-- A generated key, modelling the template-literal string type
NonRootKey of the source: a type name and a sequence number,
rendered there as "typeName:num". -/
structure NRKey where
  typeName : String
  num : Nat
deriving DecidableEq, Repr

/-- A key: either the reserved root key or a generated key. -/
inductive Key where
  | root : Key
  | gen : NRKey → Key
deriving DecidableEq, Repr

/-- The FlatValue union of the source: primitive values, a Y.Text
(modelled by its string contents), a single child key, an ordered
list of child keys, or a record of child keys. -/
inductive FlatValue where
  | str : String → FlatValue
  | num : Int → FlatValue
  | bool : Bool → FlatValue
  | ytext : String → FlatValue
  | childKey : NRKey → FlatValue
  | childKeys : List NRKey → FlatValue
  | childRecord : List (String × NRKey) → FlatValue
deriving DecidableEq, Repr

/-- Nested JSON values as used by the node types of the source:
a plain string (text leaf), an ordered array (array node), or an
object of shape type/value (wrapped node). -/
inductive JSON where
  | str : String → JSON
  | arr : List JSON → JSON
  | obj : String → JSON → JSON
deriving Repr

/-- Errors corresponding to the invariant failures of the source. -/
inductive Err where
  | notFound : Key → Err
  | typeMismatch : Key → Err
  | missingParent : Err
  | alreadyExists : Key → Err
  | invalidJson : Err
deriving DecidableEq, Repr

/-- Lookup in an association list, modelling Y.Map.get. -/
def mapGet {α : Type} : List (Key × α) → Key → Option α
  | [], _ => none
  | (k₀, v) :: rest, k => if k₀ = k then some v else mapGet rest k

/-- Write in an association list (replace the binding if the key is
present, append otherwise), modelling Y.Map.set. -/
def mapSet {α : Type} : List (Key × α) → Key → α → List (Key × α)
  | [], k, v => [(k, v)]
  | (k₀, v₀) :: rest, k, v =>
      if k₀ = k then (k, v) :: rest else (k₀, v₀) :: mapSet rest k v

/-- The EditorStore of the source: the values map, the parentKeys
map, the state map (restricted to its single updateCount entry),
the key-generation counter, and whether a transaction is active
(currentTransaction of the source, as a Bool since the transaction
handle closes over the store itself). -/
structure EditorStore where
  values : List (Key × FlatValue)
  parentKeys : List (Key × Option Key)
  state : Option Nat
  lastKeyNumber : Nat
  currentTransaction : Bool
deriving DecidableEq, Repr

/-- A fresh store over an empty Y.Doc. -/
def EditorStore.init : EditorStore :=
  { values := [], parentKeys := [], state := none,
    lastKeyNumber := 0, currentTransaction := false }

/-- EditorStore.getValue: read a flat value and assert the guard;
fails with notFound when absent and typeMismatch when the guard
rejects the stored value. -/
def EditorStore.getValue (guard : FlatValue → Bool) (key : Key)
    (s : EditorStore) : Except Err FlatValue :=
  match mapGet s.values key with
  | none => .error (.notFound key)
  | some v => if guard v then .ok v else .error (.typeMismatch key)

/-- EditorStore.getParentKey: the stored parent entry, with both a
missing entry and a stored null read as null. -/
def EditorStore.getParentKey (key : Key) (s : EditorStore) : Option Key :=
  (mapGet s.parentKeys key).getD none

/-- EditorStore.has. -/
def EditorStore.has (key : Key) (s : EditorStore) : Bool :=
  (mapGet s.values key).isSome

/-- The updateCount getter: the state entry, defaulting to 0. -/
def EditorStore.updateCount (s : EditorStore) : Nat :=
  s.state.getD 0

/-- EditorStore.incrementUpdateCount. -/
def EditorStore.incrementUpdateCount (s : EditorStore) : EditorStore :=
  { s with state := some (s.updateCount + 1) }

/-- One Y.Map.set on the values map (the source's this.values.set). -/
def EditorStore.setValueEntry (key : Key) (v : FlatValue)
    (s : EditorStore) : EditorStore :=
  { s with values := mapSet s.values key v }

/-- One Y.Map.set on the parentKeys map (the source's
this.parentKeys.set). -/
def EditorStore.setParentKeyEntry (key : Key) (pk : Option Key)
    (s : EditorStore) : EditorStore :=
  { s with parentKeys := mapSet s.parentKeys key pk }

/-- Transaction.update of the source: read the current value through
the guard, apply the update function, write the result back under
the same key.  On a failed read nothing is written. -/
def Transaction.update (guard : FlatValue → Bool) (key : Key)
    (updateFn : FlatValue → FlatValue) (s : EditorStore) :
    Except Err Unit × EditorStore :=
  match s.getValue guard key with
  | .error e => (.error e, s)
  | .ok current => (.ok (), s.setValueEntry key (updateFn current))

/-- Transaction.insertRoot of the source: fails with alreadyExists
when the root key is populated, otherwise writes the child key under
the root key.  No parentKeys entry is written. -/
def Transaction.insertRoot (value : NRKey) (s : EditorStore) :
    Except Err Unit × EditorStore :=
  if s.has Key.root then (.error (.alreadyExists Key.root), s)
  else (.ok (), s.setValueEntry Key.root (.childKey value))

/-- Transaction.insert of the source: bump the key counter
(generateKey), run createValue on the new key (which may itself
insert child nodes and further mutate the store), then record the
parent and then the value of the new key, in that order. -/
def Transaction.insert (typeName : String) (parentKey : Key)
    (createValue : NRKey → EditorStore → Except Err FlatValue × EditorStore)
    (s : EditorStore) : Except Err NRKey × EditorStore :=
  match createValue ⟨typeName, s.lastKeyNumber + 1⟩
      { s with lastKeyNumber := s.lastKeyNumber + 1 } with
  | (.error e, s₂) => (.error e, s₂)
  | (.ok v, s₂) =>
      (.ok ⟨typeName, s.lastKeyNumber + 1⟩,
        ((s₂.setParentKeyEntry (Key.gen ⟨typeName, s.lastKeyNumber + 1⟩)
            (some parentKey)).setValueEntry
          (Key.gen ⟨typeName, s.lastKeyNumber + 1⟩) v))

/-- The node-type shapes built by the source's mixin builders: the
text leaf (TextType), a single-child wrapper (WrappedNode), and an
ordered-list node (ArrayNode).  A wrapper or array node holds its
child node type, exactly as the builders close over childType. -/
inductive NT where
  | text : NT
  | wrapped : String → NT → NT
  | arr : String → NT → NT
deriving DecidableEq, Repr

/-- The typeName of a node type. -/
def NT.typeName : NT → String
  | .text => "text"
  | .wrapped t _ => t
  | .arr t _ => t

/-- isValidFlatValue of each builder: TextType accepts a Y.Text;
WrappedNode accepts a single child key of the child's type name
(isNonRootKey); ArrayNode accepts a list of child keys of the
child's type name (isArrayOf). -/
def NT.isValidFlatValue : NT → FlatValue → Bool
  | .text, .ytext _ => true
  | .text, _ => false
  | .wrapped _ c, .childKey k => k.typeName = c.typeName
  | .wrapped _ _, _ => false
  | .arr _ c, .childKeys ks => ks.all fun k => k.typeName = c.typeName
  | .arr _ _, _ => false

/-- The static JSONValue type of each node type, as a runtime check:
TextType takes a string, WrappedNode an object whose type field is
its own typeName and whose value is accepted by the child, ArrayNode
an array of values accepted by the child.  In the source this is
enforced by the TypeScript types of storeNonRoot. -/
def NT.accepts : NT → JSON → Bool
  | .text, j =>
      match j with
      | .str _ => true
      | _ => false
  | .wrapped t c, j =>
      match j with
      | .obj t₀ v => t₀ = t && NT.accepts c v
      | _ => false
  | .arr _ c, j =>
      match j with
      | .arr items => items.all fun x => NT.accepts c x
      | _ => false

/-- AbstractNode.getFlatValue: store.getValue with this node type's
validator as the guard. -/
def NT.getFlatValue (nt : NT) (key : Key) (s : EditorStore) :
    Except Err FlatValue :=
  s.getValue nt.isValidFlatValue key

/-- Iterating storeNonRoot of a child type over the elements of a
JSON array in order, collecting the new child keys (the map call in
ArrayNode.storeNonRoot).  A failure stops the iteration and keeps
the mutations made so far. -/
def storeList
    (f : JSON → Key → EditorStore → Except Err NRKey × EditorStore) :
    List JSON → Key → EditorStore → Except Err (List NRKey) × EditorStore
  | [], _, s => (.ok [], s)
  | j :: rest, parentKey, s =>
      match f j parentKey s with
      | (.error e, s₁) => (.error e, s₁)
      | (.ok k, s₁) =>
          match storeList f rest parentKey s₁ with
          | (.error e, s₂) => (.error e, s₂)
          | (.ok ks, s₂) => (.ok (k :: ks), s₂)

/-- storeNonRoot of each builder.  TextType inserts a fresh Y.Text
seeded with the string.  WrappedNode inserts its own key and stores
the child under the wrapper's own new key inside createValue.
ArrayNode inserts its own key and stores each element under the
array's own new key inside createValue, collecting the child keys
in order.  A JSON value outside the static type errors (the source
precludes this by typing). -/
def NT.storeNonRoot : (nt : NT) → JSON → Key → EditorStore →
    Except Err NRKey × EditorStore
  | .text => fun j parentKey s =>
      match j with
      | .str str =>
          Transaction.insert "text" parentKey
            (fun _ s₀ => (.ok (.ytext str), s₀)) s
      | _ => (.error .invalidJson, s)
  | .wrapped t c => fun j parentKey s =>
      match j with
      | .obj _ v =>
          Transaction.insert t parentKey
            (fun key s₀ =>
              match NT.storeNonRoot c v (Key.gen key) s₀ with
              | (.error e, s₁) => (.error e, s₁)
              | (.ok ck, s₁) => (.ok (.childKey ck), s₁)) s
      | _ => (.error .invalidJson, s)
  | .arr t c => fun j parentKey s =>
      match j with
      | .arr items =>
          Transaction.insert t parentKey
            (fun key s₀ =>
              match storeList (fun j₀ pk₀ s₀' => NT.storeNonRoot c j₀ pk₀ s₀')
                  items (Key.gen key) s₀ with
              | (.error e, s₁) => (.error e, s₁)
              | (.ok ks, s₁) => (.ok (.childKeys ks), s₁)) s
      | _ => (.error .invalidJson, s)

/-- Reading back a list of child keys in order through a child
reader (the map call in ArrayNode.toJsonValue). -/
def jsonList (f : Key → EditorStore → Except Err JSON) :
    List NRKey → EditorStore → Except Err (List JSON)
  | [], _ => .ok []
  | k :: rest, s =>
      match f (Key.gen k) s with
      | .error e => .error e
      | .ok j =>
          match jsonList f rest s with
          | .error e => .error e
          | .ok js => .ok (j :: js)

/-- toJsonValue of each builder.  TextType stringifies its Y.Text.
WrappedNode dereferences the child key and wraps the child's JSON in
an object tagged with its typeName.  ArrayNode maps toJsonValue of
the child over its child keys in order. -/
def NT.toJsonValue : (nt : NT) → Key → EditorStore → Except Err JSON
  | .text => fun key s =>
      match s.getValue (NT.isValidFlatValue .text) key with
      | .error e => .error e
      | .ok (.ytext str) => .ok (.str str)
      | .ok _ => .error (.typeMismatch key)
  | .wrapped t c => fun key s =>
      match s.getValue (NT.isValidFlatValue (.wrapped t c)) key with
      | .error e => .error e
      | .ok (.childKey ck) =>
          match NT.toJsonValue c (Key.gen ck) s with
          | .error e => .error e
          | .ok v => .ok (.obj t v)
      | .ok _ => .error (.typeMismatch key)
  | .arr t c => fun key s =>
      match s.getValue (NT.isValidFlatValue (.arr t c)) key with
      | .error e => .error e
      | .ok (.childKeys ks) =>
          match jsonList (fun k₀ s₀ => NT.toJsonValue c k₀ s₀) ks s with
          | .error e => .error e
          | .ok js => .ok (.arr js)
      | .ok _ => .error (.typeMismatch key)

/-- NonRootNode.getParentKey: the store-level parent, with the
invariant that a non-root node must have a parent key; a missing
parent fails loudly. -/
def NonRootNode.getParentKey (key : Key) (s : EditorStore) :
    Except Err Key :=
  match EditorStore.getParentKey key s with
  | none => .error .missingParent
  | some pk => .ok pk

/-- RootType.getParentKey always returns null. -/
def RootType.getParentKey (_s : EditorStore) : Option Key :=
  none

/-- RootType.isValidFlatValue: a single child key of the child
type's name (isNonRootKey). -/
def RootType.isValidFlatValue (c : NT) : FlatValue → Bool
  | .childKey k => k.typeName = c.typeName
  | _ => false

/-- RootType.toJsonValue: read the child key stored under the root
key through the validator, then delegate to the child type. -/
def RootType.toJsonValue (c : NT) (s : EditorStore) : Except Err JSON :=
  match s.getValue (RootType.isValidFlatValue c) Key.root with
  | .error e => .error e
  | .ok (.childKey ck) => NT.toJsonValue c (Key.gen ck) s
  | .ok _ => .error (.typeMismatch Key.root)

/-- RootType.storeRoot: materialize the child subtree with the root
key as parent, then insertRoot the resulting child key.  Note the
root-existence check runs only inside insertRoot, after the child
subtree has been written. -/
def RootType.storeRoot (c : NT) (j : JSON) (s : EditorStore) :
    Except Err Unit × EditorStore :=
  match NT.storeNonRoot c j Key.root s with
  | (.error e, s₁) => (.error e, s₁)
  | (.ok ck, s₁) => Transaction.insertRoot ck s₁

/-- EditorStore.update: when a transaction is active, run the body
directly against it; otherwise open a transaction, run the body,
increment the update count, and clear the transaction.  A body that
throws leaves the count unincremented and the transaction marked
active, as in the source. -/
def EditorStore.update
    (updateFn : EditorStore → Except Err Unit × EditorStore)
    (s : EditorStore) : Except Err Unit × EditorStore :=
  if s.currentTransaction then updateFn s
  else
    match updateFn { s with currentTransaction := true } with
    | (.error e, s₂) => (.error e, s₂)
    | (.ok _, s₂) =>
        (.ok (), { s₂.incrementUpdateCount with currentTransaction := false })

/-- The concrete node types of the application. -/
def TextType : NT := .text

/-- ParagraphType is WrappedNode("paragraph", TextType). -/
def ParagraphType : NT := .wrapped "paragraph" TextType

/-- ContentType is ArrayNode("content", ParagraphType); the app root
type is RootType(ContentType). -/
def ContentType : NT := .arr "content" ParagraphType

/-- The example document of the spec in the JSON shape the root type
accepts (an array of paragraph objects). -/
def exampleDoc : JSON := .arr [.obj "paragraph" (.str "Hello")]

/-- The body the app passes to EditorStore.update: storeRoot of the
app root type. -/
def storeRootBody (c : NT) (j : JSON) :
    EditorStore → Except Err Unit × EditorStore :=
  fun s => RootType.storeRoot c j s

/-- The store after storing the example document into a fresh store
inside one update call. -/
def exampleStore : EditorStore :=
  (EditorStore.update (storeRootBody ContentType exampleDoc)
    EditorStore.init).2

/-! ## Specification predicates -/

/-- The footprint of a store mutation made by the node-type store
operations: the key counter only grows, the update count and the
transaction flag are untouched, the root entries of both maps are
untouched, and every generated key at or below the starting counter
keeps its entries in both maps. -/
def Frames (s s₁ : EditorStore) : Prop :=
  s.lastKeyNumber ≤ s₁.lastKeyNumber ∧
  s₁.state = s.state ∧
  s₁.currentTransaction = s.currentTransaction ∧
  mapGet s₁.values Key.root = mapGet s.values Key.root ∧
  mapGet s₁.parentKeys Key.root = mapGet s.parentKeys Key.root ∧
  ∀ kk : NRKey, kk.num ≤ s.lastKeyNumber →
    mapGet s₁.values (Key.gen kk) = mapGet s.values (Key.gen kk) ∧
    mapGet s₁.parentKeys (Key.gen kk) = mapGet s.parentKeys (Key.gen kk)

/-- Agreement of two stores on the values of the generated keys in a
window of sequence numbers; the window of a store call is the set of
keys it allocated, and reading the stored node back depends only on
those entries. -/
def WindowAgree (lo hi : Nat) (s₁ s₂ : EditorStore) : Prop :=
  ∀ kk : NRKey, lo < kk.num → kk.num ≤ hi →
    mapGet s₂.values (Key.gen kk) = mapGet s₁.values (Key.gen kk)

/-- Every generated key present in either map has a sequence number
at or below the key counter (so the next generated key is fresh). -/
def KeysBounded (s : EditorStore) : Prop :=
  ∀ kk : NRKey,
    ((mapGet s.values (Key.gen kk)).isSome ∨
      (mapGet s.parentKeys (Key.gen kk)).isSome) →
    kk.num ≤ s.lastKeyNumber

/-- Every generated key present in the values map has an entry in
the parentKeys map. -/
def ParentInv (s : EditorStore) : Prop :=
  ∀ kk : NRKey, (mapGet s.values (Key.gen kk)).isSome →
    (mapGet s.parentKeys (Key.gen kk)).isSome

/-- The full postcondition of one storeNonRoot call on an accepted
JSON value: it succeeds with a fresh key of this node type, touches
only keys above the starting counter, records the passed parent key
for the new key, writes a flat value satisfying this type's
validator, preserves the store invariants, and reads back to the
original JSON in any store agreeing on the window of keys the call
allocated. -/
def StoreOk (nt : NT) (j : JSON) (parentKey : Key) (s : EditorStore) : Prop :=
  ∃ k s₁ v,
    nt.storeNonRoot j parentKey s = (.ok k, s₁) ∧
    k.typeName = nt.typeName ∧
    k.num = s.lastKeyNumber + 1 ∧
    s.lastKeyNumber < s₁.lastKeyNumber ∧
    Frames s s₁ ∧
    mapGet s₁.parentKeys (Key.gen k) = some (some parentKey) ∧
    mapGet s₁.values (Key.gen k) = some v ∧
    nt.isValidFlatValue v = true ∧
    (KeysBounded s → KeysBounded s₁) ∧
    (ParentInv s → ParentInv s₁) ∧
    ∀ s₂, WindowAgree s.lastKeyNumber s₁.lastKeyNumber s₁ s₂ →
      nt.toJsonValue (Key.gen k) s₂ = .ok j

/-- The corresponding postcondition for storing a list of children
in order (the map inside ArrayNode.storeNonRoot). -/
def StoreListOk (c : NT) (items : List JSON) (parentKey : Key)
    (s : EditorStore) : Prop :=
  ∃ ks s₁,
    storeList (fun j₀ pk₀ s₀ => c.storeNonRoot j₀ pk₀ s₀) items parentKey s =
      (.ok ks, s₁) ∧
    s.lastKeyNumber ≤ s₁.lastKeyNumber ∧
    Frames s s₁ ∧
    (∀ kk ∈ ks, kk.typeName = c.typeName ∧ s.lastKeyNumber < kk.num ∧
      kk.num ≤ s₁.lastKeyNumber ∧
      mapGet s₁.parentKeys (Key.gen kk) = some (some parentKey)) ∧
    (KeysBounded s → KeysBounded s₁) ∧
    (ParentInv s → ParentInv s₁) ∧
    ∀ s₂, WindowAgree s.lastKeyNumber s₁.lastKeyNumber s₁ s₂ →
      jsonList (fun k₀ s₀ => c.toJsonValue k₀ s₀) ks s₂ = .ok items

/-- A transaction body that, run with a transaction active, succeeds
without touching the state map or the transaction flag.  Bodies
composed of Transaction primitives have this shape: none of them
touches the update count or the current transaction. -/
def GoodBody (b : EditorStore → Except Err Unit × EditorStore) : Prop :=
  ∀ s, s.currentTransaction = true →
    ∃ s₁, b s = (.ok (), s₁) ∧ s₁.state = s.state ∧
      s₁.currentTransaction = true

/-- Run a list of update calls in sequence, keeping the store of
each call (the source discards the body's return value). -/
def runUpdates (bs : List (EditorStore → Except Err Unit × EditorStore))
    (s : EditorStore) : EditorStore :=
  match bs with
  | [] => s
  | b :: rest => runUpdates rest (EditorStore.update b s).2

/-- A sample transaction body: one Transaction.insert of a text
node under the root key. -/
def insertTextBody : EditorStore → Except Err Unit × EditorStore :=
  fun s =>
    match Transaction.insert "text" Key.root
        (fun _ s₀ => (.ok (.ytext "w"), s₀)) s with
    | (.error e, s₁) => (.error e, s₁)
    | (.ok _, s₁) => (.ok (), s₁)

/-! ## Map lemmas -/

theorem mapGet_mapSet {α : Type} (m : List (Key × α)) (k k' : Key) (v : α) :
    mapGet (mapSet m k v) k' = if k' = k then some v else mapGet m k' := by
  induction m with
  | nil =>
      by_cases h : k' = k
      · simp [mapGet, mapSet, h]
      · have hne : ¬k = k' := fun hh => h hh.symm
        simp [mapGet, mapSet, h, hne]
  | cons p rest ih =>
      obtain ⟨k₀, v₀⟩ := p
      by_cases h₀ : k₀ = k
      · by_cases h : k' = k
        · simp [mapGet, mapSet, h₀, h]
        · have hne : ¬k = k' := fun hh => h hh.symm
          simp [mapGet, mapSet, h₀, h, hne]
      · by_cases h : k' = k
        · subst h
          simp [mapGet, mapSet, h₀, ih]
        · simp [mapGet, mapSet, h₀, h, ih]

theorem mapGet_mapSet_self {α : Type} (m : List (Key × α)) (k : Key) (v : α) :
    mapGet (mapSet m k v) k = some v := by
  simp [mapGet_mapSet]

theorem mapGet_mapSet_ne {α : Type} (m : List (Key × α)) {k k' : Key} (v : α)
    (h : k' ≠ k) : mapGet (mapSet m k v) k' = mapGet m k' := by
  simp [mapGet_mapSet, h]

theorem setValueEntry_values (s : EditorStore) (k : Key) (v : FlatValue) :
    (s.setValueEntry k v).values = mapSet s.values k v := rfl

theorem setValueEntry_parentKeys (s : EditorStore) (k : Key) (v : FlatValue) :
    (s.setValueEntry k v).parentKeys = s.parentKeys := rfl

theorem setValueEntry_state (s : EditorStore) (k : Key) (v : FlatValue) :
    (s.setValueEntry k v).state = s.state := rfl

theorem setValueEntry_last (s : EditorStore) (k : Key) (v : FlatValue) :
    (s.setValueEntry k v).lastKeyNumber = s.lastKeyNumber := rfl

theorem setParentKeyEntry_values (s : EditorStore) (k : Key) (pk : Option Key) :
    (s.setParentKeyEntry k pk).values = s.values := rfl

theorem setParentKeyEntry_parentKeys (s : EditorStore) (k : Key)
    (pk : Option Key) :
    (s.setParentKeyEntry k pk).parentKeys = mapSet s.parentKeys k pk := rfl

/-! ## Frame and invariant lemmas -/

theorem Frames.refl (s : EditorStore) : Frames s s :=
  ⟨le_refl _, rfl, rfl, rfl, rfl, fun _ _ => ⟨rfl, rfl⟩⟩

theorem Frames.trans {s t u : EditorStore} (h₁ : Frames s t)
    (h₂ : Frames t u) : Frames s u := by
  obtain ⟨l₁, st₁, tx₁, rv₁, rp₁, g₁⟩ := h₁
  obtain ⟨l₂, st₂, tx₂, rv₂, rp₂, g₂⟩ := h₂
  refine ⟨le_trans l₁ l₂, st₂.trans st₁, tx₂.trans tx₁, rv₂.trans rv₁,
    rp₂.trans rp₁, fun kk hkk => ?_⟩
  obtain ⟨a₁, b₁⟩ := g₁ kk hkk
  obtain ⟨a₂, b₂⟩ := g₂ kk (le_trans hkk l₁)
  exact ⟨a₂.trans a₁, b₂.trans b₁⟩

theorem frames_bump (s : EditorStore) :
    Frames s { s with lastKeyNumber := s.lastKeyNumber + 1 } :=
  ⟨Nat.le_succ _, rfl, rfl, rfl, rfl, fun _ _ => ⟨rfl, rfl⟩⟩

theorem frames_setValueEntry {s t : EditorStore} (h : Frames s t)
    {kk : NRKey} (hkk : s.lastKeyNumber < kk.num) (v : FlatValue) :
    Frames s (t.setValueEntry (Key.gen kk) v) := by
  obtain ⟨l, st, tx, rv, rp, g⟩ := h
  refine ⟨l, st, tx, ?_, rp, fun k₀ hk₀ => ?_⟩
  · rw [setValueEntry_values, mapGet_mapSet,
      if_neg (fun hh => Key.noConfusion hh), rv]
  · obtain ⟨a, b⟩ := g k₀ hk₀
    constructor
    · rw [setValueEntry_values, mapGet_mapSet_ne _ _ ?_, a]
      intro hh
      have : k₀ = kk := by injection hh
      subst this
      exact absurd hk₀ (not_le_of_lt hkk)
    · rw [setValueEntry_parentKeys, b]

theorem frames_setParentKeyEntry {s t : EditorStore} (h : Frames s t)
    {kk : NRKey} (hkk : s.lastKeyNumber < kk.num) (pk : Option Key) :
    Frames s (t.setParentKeyEntry (Key.gen kk) pk) := by
  obtain ⟨l, st, tx, rv, rp, g⟩ := h
  refine ⟨l, st, tx, rv, ?_, fun k₀ hk₀ => ?_⟩
  · rw [setParentKeyEntry_parentKeys, mapGet_mapSet,
      if_neg (fun hh => Key.noConfusion hh), rp]
  · obtain ⟨a, b⟩ := g k₀ hk₀
    constructor
    · rw [setParentKeyEntry_values, a]
    · rw [setParentKeyEntry_parentKeys, mapGet_mapSet_ne _ _ ?_, b]
      intro hh
      have : k₀ = kk := by injection hh
      subst this
      exact absurd hk₀ (not_le_of_lt hkk)

theorem keysBounded_bump {s : EditorStore} (h : KeysBounded s) :
    KeysBounded { s with lastKeyNumber := s.lastKeyNumber + 1 } := by
  intro kk hkk
  exact le_trans (h kk hkk) (Nat.le_succ _)

theorem keysBounded_setParentKeyEntry {s : EditorStore} (h : KeysBounded s)
    {kk : NRKey} (hkk : kk.num ≤ s.lastKeyNumber) (pk : Option Key) :
    KeysBounded (s.setParentKeyEntry (Key.gen kk) pk) := by
  intro k₀ hk₀
  by_cases hek : k₀ = kk
  · subst hek; exact hkk
  · apply h k₀
    have hne : Key.gen k₀ ≠ Key.gen kk := fun hh => hek (by injection hh)
    rcases hk₀ with h₁ | h₂
    · exact Or.inl (by rwa [setParentKeyEntry_values] at h₁)
    · refine Or.inr ?_
      rwa [setParentKeyEntry_parentKeys, mapGet_mapSet_ne _ _ hne] at h₂

theorem keysBounded_setValueEntry {s : EditorStore} (h : KeysBounded s)
    {kk : NRKey} (hkk : kk.num ≤ s.lastKeyNumber) (v : FlatValue) :
    KeysBounded (s.setValueEntry (Key.gen kk) v) := by
  intro k₀ hk₀
  by_cases hek : k₀ = kk
  · subst hek; exact hkk
  · apply h k₀
    have hne : Key.gen k₀ ≠ Key.gen kk := fun hh => hek (by injection hh)
    rcases hk₀ with h₁ | h₂
    · refine Or.inl ?_
      rwa [setValueEntry_values, mapGet_mapSet_ne _ _ hne] at h₁
    · exact Or.inr (by rwa [setValueEntry_parentKeys] at h₂)

theorem parentInv_setParentKeyEntry {s : EditorStore} (h : ParentInv s)
    (kk : NRKey) (pk : Option Key) :
    ParentInv (s.setParentKeyEntry (Key.gen kk) pk) := by
  intro k₀ hk₀
  rw [setParentKeyEntry_values] at hk₀
  rw [setParentKeyEntry_parentKeys, mapGet_mapSet]
  by_cases hek : Key.gen k₀ = Key.gen kk
  · rw [if_pos hek]; rfl
  · rw [if_neg hek]; exact h k₀ hk₀

theorem ParentInv.insertPair {s : EditorStore} (h : ParentInv s)
    (kk : NRKey) (pk : Option Key) (v : FlatValue) :
    ParentInv
      ((s.setParentKeyEntry (Key.gen kk) pk).setValueEntry (Key.gen kk) v) := by
  intro k₀ hk₀
  rw [setValueEntry_parentKeys, setParentKeyEntry_parentKeys, mapGet_mapSet]
  by_cases hek : Key.gen k₀ = Key.gen kk
  · rw [if_pos hek]; rfl
  · rw [if_neg hek]
    apply h k₀
    rwa [setValueEntry_values, setParentKeyEntry_values,
      mapGet_mapSet_ne _ _ hek] at hk₀

/-! ## The main induction: what one storeNonRoot call guarantees -/

theorem storeList_spec (c : NT)
    (hc : ∀ j parentKey s, c.accepts j = true → StoreOk c j parentKey s) :
    ∀ (items : List JSON) (parentKey : Key) (s : EditorStore),
      items.all (fun x => c.accepts x) = true →
      StoreListOk c items parentKey s := by
  intro items
  induction items with
  | nil =>
      intro parentKey s _
      refine ⟨[], s, rfl, le_refl _, Frames.refl s, ?_, fun h => h,
        fun h => h, fun s₂ _ => rfl⟩
      intro kk hkk
      cases hkk
  | cons j rest ih =>
      intro parentKey s hall
      rw [List.all_cons, Bool.and_eq_true] at hall
      obtain ⟨hj, hrest⟩ := hall
      obtain ⟨k, s₁, v, heq, htn, hknum, hlt, hfr, hpar, hval, hvalid, hkb,
        hpi, hread⟩ := hc j parentKey s hj
      obtain ⟨ks, s₂, heq₂, hle₂, hfr₂, hmem₂, hkb₂, hpi₂, hread₂⟩ :=
        ih parentKey s₁ hrest
      obtain ⟨l₂, _, _, _, _, g₂⟩ := hfr₂
      refine ⟨k :: ks, s₂, ?_, le_trans (le_of_lt hlt) l₂,
        hfr.trans ⟨l₂, by assumption, by assumption, by assumption,
          by assumption, g₂⟩, ?_, fun h => hkb₂ (hkb h),
        fun h => hpi₂ (hpi h), ?_⟩
      · simp [storeList, heq, heq₂]
      · intro kk hkk
        rcases List.mem_cons.1 hkk with hk | hk
        · subst hk
          have hknum' : kk.num ≤ s₁.lastKeyNumber := by omega
          refine ⟨htn, by omega, le_trans hknum' l₂, ?_⟩
          rw [(g₂ kk hknum').2, hpar]
        · obtain ⟨a, b, c', d⟩ := hmem₂ kk hk
          exact ⟨a, by omega, c', d⟩
      · intro t hwa
        have h₁ : c.toJsonValue (Key.gen k) t = .ok j := by
          apply hread
          intro kk h₁kk h₂kk
          have ha := hwa kk h₁kk (le_trans h₂kk l₂)
          have hb := (g₂ kk h₂kk).1
          exact ha.trans hb
        have h₂ : jsonList (fun k₀ s₀ => c.toJsonValue k₀ s₀) ks t =
            .ok rest := by
          apply hread₂
          intro kk h₁kk h₂kk
          exact hwa kk (lt_of_le_of_lt (le_of_lt hlt) h₁kk) h₂kk
        simp [jsonList, h₁, h₂]

theorem storeNonRoot_spec :
    ∀ (nt : NT) (j : JSON) (parentKey : Key) (s : EditorStore),
      nt.accepts j = true → StoreOk nt j parentKey s := by
  intro nt
  induction nt with
  | text =>
      intro j parentKey s hacc
      cases j with
      | arr xs => simp [NT.accepts] at hacc
      | obj t₀ v₀ => simp [NT.accepts] at hacc
      | str str =>
          refine ⟨⟨"text", s.lastKeyNumber + 1⟩,
            (({ s with lastKeyNumber := s.lastKeyNumber + 1 }).setParentKeyEntry
              (Key.gen ⟨"text", s.lastKeyNumber + 1⟩)
              (some parentKey)).setValueEntry
              (Key.gen ⟨"text", s.lastKeyNumber + 1⟩) (.ytext str),
            .ytext str, ?_, rfl, rfl, Nat.lt_succ_self _, ?_, ?_, ?_, rfl,
            ?_, ?_, ?_⟩
          · simp [NT.storeNonRoot, Transaction.insert]
          · exact frames_setValueEntry (frames_setParentKeyEntry (frames_bump s)
              (Nat.lt_succ_self _) _) (Nat.lt_succ_self _) _
          · rw [setValueEntry_parentKeys, setParentKeyEntry_parentKeys,
              mapGet_mapSet_self]
          · rw [setValueEntry_values, mapGet_mapSet_self]
          · intro h
            exact keysBounded_setValueEntry (keysBounded_setParentKeyEntry
              (keysBounded_bump h) (le_refl _) _) (le_refl _) _
          · intro h
            exact ParentInv.insertPair h _ _ _
          · intro s₂ hwa
            have hv : mapGet s₂.values
                (Key.gen ⟨"text", s.lastKeyNumber + 1⟩) =
                some (.ytext str) := by
              rw [hwa ⟨"text", s.lastKeyNumber + 1⟩ (Nat.lt_succ_self _)
                (le_refl _), setValueEntry_values, mapGet_mapSet_self]
            simp [NT.toJsonValue, EditorStore.getValue, hv,
              NT.isValidFlatValue]
  | wrapped t c ihc =>
      intro j parentKey s hacc
      cases j with
      | str a => simp [NT.accepts] at hacc
      | arr xs => simp [NT.accepts] at hacc
      | obj t₀ v =>
          rw [show NT.accepts (.wrapped t c) (.obj t₀ v) =
            (decide (t₀ = t) && NT.accepts c v) from rfl,
            Bool.and_eq_true, decide_eq_true_eq] at hacc
          obtain ⟨ht₀, hv⟩ := hacc
          obtain ⟨ck, s₂, w, heqc, htnc, hknc, hltc, hfrc, hparc, hvalc,
            hvldc, hkbc, hpic, hreadc⟩ :=
            ihc v (Key.gen ⟨t, s.lastKeyNumber + 1⟩)
              { s with lastKeyNumber := s.lastKeyNumber + 1 } hv
          refine ⟨⟨t, s.lastKeyNumber + 1⟩,
            (s₂.setParentKeyEntry (Key.gen ⟨t, s.lastKeyNumber + 1⟩)
              (some parentKey)).setValueEntry
              (Key.gen ⟨t, s.lastKeyNumber + 1⟩) (.childKey ck),
            .childKey ck, ?_, rfl, rfl,
            lt_trans (Nat.lt_succ_self _) hltc, ?_, ?_, ?_, ?_, ?_, ?_, ?_⟩
          · simp [NT.storeNonRoot, Transaction.insert, heqc]
          · exact frames_setValueEntry (frames_setParentKeyEntry
              ((frames_bump s).trans hfrc) (Nat.lt_succ_self _) _)
              (Nat.lt_succ_self _) _
          · rw [setValueEntry_parentKeys, setParentKeyEntry_parentKeys,
              mapGet_mapSet_self]
          · rw [setValueEntry_values, mapGet_mapSet_self]
          · simp [NT.isValidFlatValue, htnc]
          · intro h
            exact keysBounded_setValueEntry (keysBounded_setParentKeyEntry
              (hkbc (keysBounded_bump h)) (le_of_lt hltc) _)
              (le_of_lt hltc) _
          · intro h
            exact ParentInv.insertPair (hpic h) _ _ _
          · intro s₃ hwa
            have hk : mapGet s₃.values
                (Key.gen ⟨t, s.lastKeyNumber + 1⟩) =
                some (.childKey ck) := by
              rw [hwa ⟨t, s.lastKeyNumber + 1⟩ (Nat.lt_succ_self _)
                (le_of_lt hltc), setValueEntry_values, mapGet_mapSet_self]
            have hchild : c.toJsonValue (Key.gen ck) s₃ = .ok v := by
              apply hreadc
              intro kk h₁kk h₂kk
              have hne : Key.gen kk ≠
                  Key.gen ⟨t, s.lastKeyNumber + 1⟩ := by
                intro hh
                have hkkk : kk = ⟨t, s.lastKeyNumber + 1⟩ := by injection hh
                subst hkkk
                exact absurd h₁kk (lt_irrefl _)
              rw [hwa kk (lt_trans (Nat.lt_succ_self _) h₁kk) h₂kk,
                setValueEntry_values, mapGet_mapSet_ne _ _ hne,
                setParentKeyEntry_values]
            simp [NT.toJsonValue, EditorStore.getValue, hk,
              NT.isValidFlatValue, htnc, hchild, ht₀]
  | arr t c ihc =>
      intro j parentKey s hacc
      cases j with
      | str a => simp [NT.accepts] at hacc
      | obj t₀ v₀ => simp [NT.accepts] at hacc
      | arr items =>
          have hall : items.all (fun x => c.accepts x) = true := by
            simpa [NT.accepts] using hacc
          obtain ⟨ks, s₂, heql, hle₂, hfr₂, hmem₂, hkb₂, hpi₂, hread₂⟩ :=
            storeList_spec c ihc items (Key.gen ⟨t, s.lastKeyNumber + 1⟩)
              { s with lastKeyNumber := s.lastKeyNumber + 1 } hall
          have hvld : NT.isValidFlatValue (.arr t c) (.childKeys ks) =
              true := by
            simp only [NT.isValidFlatValue, List.all_eq_true,
              decide_eq_true_eq]
            intro kk hkk
            exact (hmem₂ kk hkk).1
          refine ⟨⟨t, s.lastKeyNumber + 1⟩,
            (s₂.setParentKeyEntry (Key.gen ⟨t, s.lastKeyNumber + 1⟩)
              (some parentKey)).setValueEntry
              (Key.gen ⟨t, s.lastKeyNumber + 1⟩) (.childKeys ks),
            .childKeys ks, ?_, rfl, rfl,
            lt_of_lt_of_le (Nat.lt_succ_self _) hle₂, ?_, ?_, ?_, hvld,
            ?_, ?_, ?_⟩
          · simp [NT.storeNonRoot, Transaction.insert, heql]
          · exact frames_setValueEntry (frames_setParentKeyEntry
              ((frames_bump s).trans hfr₂) (Nat.lt_succ_self _) _)
              (Nat.lt_succ_self _) _
          · rw [setValueEntry_parentKeys, setParentKeyEntry_parentKeys,
              mapGet_mapSet_self]
          · rw [setValueEntry_values, mapGet_mapSet_self]
          · intro h
            exact keysBounded_setValueEntry (keysBounded_setParentKeyEntry
              (hkb₂ (keysBounded_bump h)) hle₂ _) hle₂ _
          · intro h
            exact ParentInv.insertPair (hpi₂ h) _ _ _
          · intro s₃ hwa
            have hk : mapGet s₃.values
                (Key.gen ⟨t, s.lastKeyNumber + 1⟩) =
                some (.childKeys ks) := by
              rw [hwa ⟨t, s.lastKeyNumber + 1⟩ (Nat.lt_succ_self _) hle₂,
                setValueEntry_values, mapGet_mapSet_self]
            have hchildren : jsonList (fun k₀ s₀ => c.toJsonValue k₀ s₀)
                ks s₃ = .ok items := by
              apply hread₂
              intro kk h₁kk h₂kk
              have hne : Key.gen kk ≠
                  Key.gen ⟨t, s.lastKeyNumber + 1⟩ := by
                intro hh
                have hkkk : kk = ⟨t, s.lastKeyNumber + 1⟩ := by injection hh
                subst hkkk
                exact absurd h₁kk (lt_irrefl _)
              rw [hwa kk (lt_trans (Nat.lt_succ_self _) h₁kk) h₂kk,
                setValueEntry_values, mapGet_mapSet_ne _ _ hne,
                setParentKeyEntry_values]
            simp [NT.toJsonValue, EditorStore.getValue, hk, hvld,
              hchildren]

/-! ## Derived specifications -/

theorem storeRoot_ok (c : NT) (j : JSON) (s : EditorStore)
    (hacc : c.accepts j = true)
    (hfree : EditorStore.has Key.root s = false) :
    ∃ s₁ ck, RootType.storeRoot c j s = (.ok (), s₁) ∧
      mapGet s₁.values Key.root = some (.childKey ck) ∧
      RootType.isValidFlatValue c (.childKey ck) = true ∧
      RootType.toJsonValue c s₁ = .ok j := by
  obtain ⟨ck, s₀, w, heq, htn, hknum, hlt, hfr, hpar, hval, hvalid, hkb,
    hpi, hread⟩ := storeNonRoot_spec c j Key.root s hacc
  obtain ⟨hle, hst, htx, hrv, hrp, hgen⟩ := hfr
  have hfree₀ : EditorStore.has Key.root s₀ = false := by
    unfold EditorStore.has at hfree ⊢
    rw [hrv]; exact hfree
  have hv₁ : mapGet (s₀.setValueEntry Key.root (.childKey ck)).values
      Key.root = some (.childKey ck) := by
    rw [setValueEntry_values, mapGet_mapSet_self]
  refine ⟨s₀.setValueEntry Key.root (.childKey ck), ck, ?_, hv₁, ?_, ?_⟩
  · simp [RootType.storeRoot, heq, Transaction.insertRoot, hfree₀]
  · simp [RootType.isValidFlatValue, htn]
  · have hchild : c.toJsonValue (Key.gen ck)
        (s₀.setValueEntry Key.root (.childKey ck)) = .ok j := by
      apply hread
      intro kk h₁kk h₂kk
      rw [setValueEntry_values,
        mapGet_mapSet_ne _ _ (fun hh => Key.noConfusion hh)]
    simp [RootType.toJsonValue, EditorStore.getValue, hv₁,
      RootType.isValidFlatValue, htn, hchild]

theorem storeRoot_occupied (c : NT) (j : JSON) (s : EditorStore)
    (hacc : c.accepts j = true)
    (hocc : EditorStore.has Key.root s = true) :
    ∃ s₁, RootType.storeRoot c j s =
        (.error (.alreadyExists Key.root), s₁) ∧ Frames s s₁ := by
  obtain ⟨ck, s₀, w, heq, _, _, _, hfr, _, _, _, _, _, _⟩ :=
    storeNonRoot_spec c j Key.root s hacc
  have hocc₀ : EditorStore.has Key.root s₀ = true := by
    unfold EditorStore.has at hocc ⊢
    rw [hfr.2.2.2.1]; exact hocc
  exact ⟨s₀,
    by simp [RootType.storeRoot, heq, Transaction.insertRoot, hocc₀], hfr⟩

theorem update_single {b : EditorStore → Except Err Unit × EditorStore}
    (hb : GoodBody b) (s : EditorStore)
    (hs : s.currentTransaction = false) :
    ∃ s₁, EditorStore.update b s = (.ok (), s₁) ∧
      s₁.updateCount = s.updateCount + 1 ∧
      s₁.currentTransaction = false := by
  obtain ⟨s₂, hbs, hst, htx⟩ := hb { s with currentTransaction := true } rfl
  refine ⟨{ s₂.incrementUpdateCount with currentTransaction := false },
    ?_, ?_, rfl⟩
  · simp [EditorStore.update, hs, hbs]
  · simp [EditorStore.incrementUpdateCount, EditorStore.updateCount, hst]

theorem KeysBounded_init : KeysBounded EditorStore.init := by
  intro kk h
  rcases h with h | h <;> simp [EditorStore.init, mapGet] at h

theorem ParentInv_init : ParentInv EditorStore.init := by
  intro kk h
  simp [EditorStore.init, mapGet] at h

theorem insertTextBody_good : GoodBody insertTextBody := by
  intro s hs
  exact ⟨_, rfl, rfl, hs⟩

/-! ## Claims -/

/-- C1: for every JSON value accepted by a node type's storeNonRoot
(text, paragraph, content) or by the root type's storeRoot, storing
it inside one transaction and then calling toJsonValue on the node
at the resulting key returns a value equal to the original. -/
theorem C1_round_trip :
    (∀ (nt : NT) (j : JSON) (parentKey : Key) (s : EditorStore),
        nt.accepts j = true →
        ∃ k s₁, nt.storeNonRoot j parentKey s = (.ok k, s₁) ∧
          nt.toJsonValue (Key.gen k) s₁ = .ok j) ∧
    (∀ (c : NT) (j : JSON) (s : EditorStore),
        c.accepts j = true → EditorStore.has Key.root s = false →
        ∃ s₁, RootType.storeRoot c j s = (.ok (), s₁) ∧
          RootType.toJsonValue c s₁ = .ok j) := by
  constructor
  · intro nt j parentKey s hacc
    obtain ⟨k, s₁, v, heq, _, _, _, _, _, _, _, _, _, hread⟩ :=
      storeNonRoot_spec nt j parentKey s hacc
    exact ⟨k, s₁, heq, hread s₁ (fun kk _ _ => rfl)⟩
  · intro c j s hacc hfree
    obtain ⟨s₁, ck, heq, _, _, hjson⟩ := storeRoot_ok c j s hacc hfree
    exact ⟨s₁, heq, hjson⟩

/-- Witness for C1 at the application root type and the example
document. -/
theorem C1_round_trip_witness :
    ContentType.accepts exampleDoc = true ∧
    EditorStore.has Key.root EditorStore.init = false ∧
    ∃ s₁, RootType.storeRoot ContentType exampleDoc EditorStore.init =
        (.ok (), s₁) ∧
      RootType.toJsonValue ContentType s₁ = .ok exampleDoc :=
  ⟨rfl, rfl, C1_round_trip.2 ContentType exampleDoc EditorStore.init rfl rfl⟩

/-- C2 (amended): once the root key is populated, insertRoot fails
with AlreadyExists leaving the store exactly unchanged, and a second
storeRoot fails with AlreadyExists leaving the root entries and
every previously generated key unchanged in both maps.  (The claim's
stronger reading, that the whole store is unchanged after a failed
storeRoot, is refuted separately: storeRoot materializes the child
subtree before the root-existence check runs.) -/
theorem C2_single_root_enforced :
    (∀ (v : NRKey) (s : EditorStore),
        EditorStore.has Key.root s = true →
        Transaction.insertRoot v s =
          (.error (.alreadyExists Key.root), s)) ∧
    (∀ (c : NT) (j : JSON) (s : EditorStore), c.accepts j = true →
        EditorStore.has Key.root s = true →
        ∃ s₁, RootType.storeRoot c j s =
            (.error (.alreadyExists Key.root), s₁) ∧
          mapGet s₁.values Key.root = mapGet s.values Key.root ∧
          mapGet s₁.parentKeys Key.root = mapGet s.parentKeys Key.root ∧
          ∀ kk : NRKey, kk.num ≤ s.lastKeyNumber →
            mapGet s₁.values (Key.gen kk) = mapGet s.values (Key.gen kk) ∧
            mapGet s₁.parentKeys (Key.gen kk) =
              mapGet s.parentKeys (Key.gen kk)) := by
  constructor
  · intro v s hocc
    simp [Transaction.insertRoot, hocc]
  · intro c j s hacc hocc
    obtain ⟨s₁, heq, hfr⟩ := storeRoot_occupied c j s hacc hocc
    obtain ⟨_, _, _, hrv, hrp, hgen⟩ := hfr
    exact ⟨s₁, heq, hrv, hrp, hgen⟩

/-- Witness for C2 at the populated example store. -/
theorem C2_single_root_enforced_witness :
    EditorStore.has Key.root exampleStore = true ∧
    Transaction.insertRoot ⟨"content", 9⟩ exampleStore =
      (.error (.alreadyExists Key.root), exampleStore) :=
  ⟨rfl, C2_single_root_enforced.1 ⟨"content", 9⟩ exampleStore rfl⟩

/-- C2 counterexample: a second storeRoot of the example document
against the already-populated store fails with AlreadyExists, yet
the values map afterwards differs from its state after the first
call: the child subtree was materialized before the failing
root-existence check. -/
theorem C2_second_storeRoot_mutates :
    (EditorStore.update (storeRootBody ContentType exampleDoc)
        exampleStore).1 = .error (.alreadyExists Key.root) ∧
    (EditorStore.update (storeRootBody ContentType exampleDoc)
        exampleStore).2.values ≠ exampleStore.values := by
  exact ⟨rfl, by decide⟩

/-- C3: N consecutive update calls whose bodies commit and trigger
no failing operation increment updateCount by exactly N; a nested
update call runs its body against the active transaction and does
not commit again, so one update whose body performs further update
calls increments the count by exactly 1. -/
theorem C3_commit_counting :
    (∀ (bs : List (EditorStore → Except Err Unit × EditorStore))
        (s : EditorStore), (∀ b ∈ bs, GoodBody b) →
        s.currentTransaction = false →
        (runUpdates bs s).updateCount = s.updateCount + bs.length ∧
        (runUpdates bs s).currentTransaction = false) ∧
    (∀ (b : EditorStore → Except Err Unit × EditorStore)
        (s : EditorStore), s.currentTransaction = true →
        EditorStore.update b s = b s) ∧
    (∀ (b : EditorStore → Except Err Unit × EditorStore)
        (s : EditorStore), GoodBody b → s.currentTransaction = false →
        ∃ s₁, EditorStore.update (fun s₀ => EditorStore.update b s₀) s =
            (.ok (), s₁) ∧
          s₁.updateCount = s.updateCount + 1 ∧
          s₁.currentTransaction = false) := by
  have hnest : ∀ (b : EditorStore → Except Err Unit × EditorStore)
      (s : EditorStore), s.currentTransaction = true →
      EditorStore.update b s = b s := by
    intro b s h
    simp [EditorStore.update, h]
  refine ⟨?_, hnest, ?_⟩
  · intro bs
    induction bs with
    | nil =>
        intro s _ hs
        exact ⟨by simp [runUpdates], hs⟩
    | cons b rest ih =>
        intro s hall hs
        obtain ⟨s₁, hup, hcount, htx⟩ :=
          update_single (hall b (List.mem_cons_self _ _)) s hs
        have hrest :=
          ih s₁ (fun b₀ h₀ => hall b₀ (List.mem_cons_of_mem _ h₀)) htx
        have hstep : runUpdates (b :: rest) s = runUpdates rest s₁ := by
          simp [runUpdates, hup]
        refine ⟨?_, by rw [hstep]; exact hrest.2⟩
        rw [hstep, hrest.1, hcount, List.length_cons]
        omega
  · intro b s hb hs
    have hgood : GoodBody (fun s₀ => EditorStore.update b s₀) := by
      intro s₀ h₀
      obtain ⟨s₁, hbs, hst, htx⟩ := hb s₀ h₀
      exact ⟨s₁, by
        show EditorStore.update b s₀ = (Except.ok (), s₁)
        rw [hnest b s₀ h₀]; exact hbs, hst, htx⟩
    exact update_single hgood s hs

/-- Witness for C3: two consecutive non-nested update calls raise
the count from 0 to 2. -/
theorem C3_commit_counting_witness :
    (∀ b ∈ [insertTextBody, insertTextBody], GoodBody b) ∧
    EditorStore.init.currentTransaction = false ∧
    (runUpdates [insertTextBody, insertTextBody]
        EditorStore.init).updateCount =
      EditorStore.init.updateCount + 2 := by
  have hall : ∀ b ∈ [insertTextBody, insertTextBody], GoodBody b := by
    intro b hb
    rcases List.mem_cons.1 hb with h | hb₂
    · exact h ▸ insertTextBody_good
    · rcases List.mem_cons.1 hb₂ with h | hb₃
      · exact h ▸ insertTextBody_good
      · cases hb₃
  exact ⟨hall, rfl,
    (C3_commit_counting.1 [insertTextBody, insertTextBody]
      EditorStore.init hall rfl).1⟩

/-- C4 (amended): storing the example document in the JSON shape the
application root type accepts, the array
[ paragraph "Hello" ] (there is no document-object wrapper in the
code), under the root key into a fresh store produces exactly three
generated keys content:1, paragraph:2, text:3 (the sequence counter
is shared across all types, not per type), with getParentKey
chaining text:3 to paragraph:2 to content:1 to root, and
re-serializing from the root returns the original JSON exactly. -/
theorem C4_example_scenario :
    exampleStore.values =
      [(Key.gen ⟨"text", 3⟩, .ytext "Hello"),
       (Key.gen ⟨"paragraph", 2⟩, .childKey ⟨"text", 3⟩),
       (Key.gen ⟨"content", 1⟩, .childKeys [⟨"paragraph", 2⟩]),
       (Key.root, .childKey ⟨"content", 1⟩)] ∧
    EditorStore.getParentKey (Key.gen ⟨"text", 3⟩) exampleStore =
      some (Key.gen ⟨"paragraph", 2⟩) ∧
    EditorStore.getParentKey (Key.gen ⟨"paragraph", 2⟩) exampleStore =
      some (Key.gen ⟨"content", 1⟩) ∧
    EditorStore.getParentKey (Key.gen ⟨"content", 1⟩) exampleStore =
      some Key.root ∧
    RootType.toJsonValue ContentType exampleStore = .ok exampleDoc :=
  ⟨rfl, rfl, rfl, rfl, rfl⟩

/-- C4 counterexample: after storing the example document there is
no key text:1 at all (its parent lookup yields null, not
paragraph:1), and the document-object shape given in the claim is
not accepted by the root type's store operation. -/
theorem C4_example_scenario_counterexample :
    EditorStore.getParentKey (Key.gen ⟨"text", 1⟩) exampleStore = none ∧
    EditorStore.has (Key.gen ⟨"text", 1⟩) exampleStore = false ∧
    ContentType.accepts
      (.obj "document" (.arr [.obj "paragraph" (.str "Hello")])) =
      false :=
  ⟨rfl, rfl, rfl⟩

/-- C5: every storeNonRoot call records, for its newly allocated
key, exactly the parentKey it was passed; a wrapped node's child
records the wrapper's own new key as parent, and every child of an
array node records the array's own new key as parent. -/
theorem C5_parent_integrity :
    (∀ (nt : NT) (j : JSON) (parentKey : Key) (s : EditorStore),
        nt.accepts j = true →
        ∃ k s₁, nt.storeNonRoot j parentKey s = (.ok k, s₁) ∧
          EditorStore.getParentKey (Key.gen k) s₁ = some parentKey) ∧
    (∀ (t : String) (c : NT) (t₀ : String) (v : JSON) (parentKey : Key)
        (s : EditorStore),
        NT.accepts (.wrapped t c) (.obj t₀ v) = true →
        ∃ k ck s₁,
          NT.storeNonRoot (.wrapped t c) (.obj t₀ v) parentKey s =
            (.ok k, s₁) ∧
          mapGet s₁.values (Key.gen k) = some (.childKey ck) ∧
          EditorStore.getParentKey (Key.gen ck) s₁ = some (Key.gen k)) ∧
    (∀ (t : String) (c : NT) (items : List JSON) (parentKey : Key)
        (s : EditorStore),
        NT.accepts (.arr t c) (.arr items) = true →
        ∃ k ks s₁,
          NT.storeNonRoot (.arr t c) (.arr items) parentKey s =
            (.ok k, s₁) ∧
          mapGet s₁.values (Key.gen k) = some (.childKeys ks) ∧
          ∀ kk ∈ ks,
            EditorStore.getParentKey (Key.gen kk) s₁ =
              some (Key.gen k)) := by
  refine ⟨?_, ?_, ?_⟩
  · intro nt j parentKey s hacc
    obtain ⟨k, s₁, v, heq, _, _, _, _, hpar, _, _, _, _, _⟩ :=
      storeNonRoot_spec nt j parentKey s hacc
    exact ⟨k, s₁, heq, by simp [EditorStore.getParentKey, hpar]⟩
  · intro t c t₀ v parentKey s hacc
    rw [show NT.accepts (.wrapped t c) (.obj t₀ v) =
      (decide (t₀ = t) && NT.accepts c v) from rfl,
      Bool.and_eq_true, decide_eq_true_eq] at hacc
    obtain ⟨ht₀, hv⟩ := hacc
    obtain ⟨ck, s₂, w, heqc, htnc, hknc, hltc, hfrc, hparc, hvalc, hvldc,
      hkbc, hpic, hreadc⟩ :=
      storeNonRoot_spec c v (Key.gen ⟨t, s.lastKeyNumber + 1⟩)
        { s with lastKeyNumber := s.lastKeyNumber + 1 } hv
    refine ⟨⟨t, s.lastKeyNumber + 1⟩, ck,
      (s₂.setParentKeyEntry (Key.gen ⟨t, s.lastKeyNumber + 1⟩)
        (some parentKey)).setValueEntry
        (Key.gen ⟨t, s.lastKeyNumber + 1⟩) (.childKey ck), ?_, ?_, ?_⟩
    · simp [NT.storeNonRoot, Transaction.insert, heqc]
    · rw [setValueEntry_values, mapGet_mapSet_self]
    · have hknc' : ck.num = s.lastKeyNumber + 1 + 1 := hknc
      have hne : Key.gen ck ≠ Key.gen ⟨t, s.lastKeyNumber + 1⟩ := by
        intro hh
        have h₁ : ck = ⟨t, s.lastKeyNumber + 1⟩ := by injection hh
        have h₂ : ck.num = s.lastKeyNumber + 1 := congrArg NRKey.num h₁
        omega
      simp only [EditorStore.getParentKey, setValueEntry_parentKeys,
        setParentKeyEntry_parentKeys]
      rw [mapGet_mapSet_ne _ _ hne, hparc]
      rfl
  · intro t c items parentKey s hacc
    have hall : items.all (fun x => c.accepts x) = true := by
      simpa [NT.accepts] using hacc
    obtain ⟨ks, s₂, heql, hle₂, hfr₂, hmem₂, hkb₂, hpi₂, hread₂⟩ :=
      storeList_spec c (fun j₀ pk₀ s₀ h₀ => storeNonRoot_spec c j₀ pk₀ s₀ h₀)
        items (Key.gen ⟨t, s.lastKeyNumber + 1⟩)
        { s with lastKeyNumber := s.lastKeyNumber + 1 } hall
    refine ⟨⟨t, s.lastKeyNumber + 1⟩, ks,
      (s₂.setParentKeyEntry (Key.gen ⟨t, s.lastKeyNumber + 1⟩)
        (some parentKey)).setValueEntry
        (Key.gen ⟨t, s.lastKeyNumber + 1⟩) (.childKeys ks), ?_, ?_, ?_⟩
    · simp [NT.storeNonRoot, Transaction.insert, heql]
    · rw [setValueEntry_values, mapGet_mapSet_self]
    · intro kk hkk
      obtain ⟨_, hlo, hhi, hpar⟩ := hmem₂ kk hkk
      have hlo' : s.lastKeyNumber + 1 < kk.num := hlo
      have hne : Key.gen kk ≠ Key.gen ⟨t, s.lastKeyNumber + 1⟩ := by
        intro hh
        have h₁ : kk = ⟨t, s.lastKeyNumber + 1⟩ := by injection hh
        have h₂ : kk.num = s.lastKeyNumber + 1 := congrArg NRKey.num h₁
        omega
      simp only [EditorStore.getParentKey, setValueEntry_parentKeys,
        setParentKeyEntry_parentKeys]
      rw [mapGet_mapSet_ne _ _ hne, hpar]
      rfl

/-- Witness for C5 at the application content type. -/
theorem C5_parent_integrity_witness :
    ContentType.accepts exampleDoc = true ∧
    ∃ k s₁, ContentType.storeNonRoot exampleDoc Key.root
        EditorStore.init = (.ok k, s₁) ∧
      EditorStore.getParentKey (Key.gen k) s₁ = some Key.root :=
  ⟨rfl, C5_parent_integrity.1 ContentType exampleDoc Key.root
    EditorStore.init rfl⟩

/-- C6: every flat value written by a node type's store operation
(including the root's) satisfies that type's validator, and a read
through a node type's getFlatValue fails loudly with TypeMismatch
when the stored value does not satisfy the validator (and with
NotFound when there is no value), never returning a coerced
value. -/
theorem C6_flat_value_validation :
    (∀ (nt : NT) (j : JSON) (parentKey : Key) (s : EditorStore),
        nt.accepts j = true →
        ∃ k s₁ v, nt.storeNonRoot j parentKey s = (.ok k, s₁) ∧
          mapGet s₁.values (Key.gen k) = some v ∧
          nt.isValidFlatValue v = true) ∧
    (∀ (c : NT) (j : JSON) (s : EditorStore), c.accepts j = true →
        EditorStore.has Key.root s = false →
        ∃ s₁ v, RootType.storeRoot c j s = (.ok (), s₁) ∧
          mapGet s₁.values Key.root = some v ∧
          RootType.isValidFlatValue c v = true) ∧
    (∀ (nt : NT) (k : Key) (s : EditorStore) (v : FlatValue),
        mapGet s.values k = some v → nt.isValidFlatValue v = false →
        nt.getFlatValue k s = .error (.typeMismatch k)) ∧
    (∀ (nt : NT) (k : Key) (s : EditorStore),
        mapGet s.values k = none →
        nt.getFlatValue k s = .error (.notFound k)) := by
  refine ⟨?_, ?_, ?_, ?_⟩
  · intro nt j parentKey s hacc
    obtain ⟨k, s₁, v, heq, _, _, _, _, _, hval, hvalid, _, _, _⟩ :=
      storeNonRoot_spec nt j parentKey s hacc
    exact ⟨k, s₁, v, heq, hval, hvalid⟩
  · intro c j s hacc hfree
    obtain ⟨s₁, ck, heq, hval, hvalid, _⟩ := storeRoot_ok c j s hacc hfree
    exact ⟨s₁, .childKey ck, heq, hval, hvalid⟩
  · intro nt k s v hv hbad
    simp [NT.getFlatValue, EditorStore.getValue, hv, hbad]
  · intro nt k s hv
    simp [NT.getFlatValue, EditorStore.getValue, hv]

/-- Witness for C6: reading the text node's value through the
paragraph type (cross-wiring) fails loudly with TypeMismatch. -/
theorem C6_flat_value_validation_witness :
    mapGet exampleStore.values (Key.gen ⟨"text", 3⟩) =
      some (.ytext "Hello") ∧
    ParagraphType.isValidFlatValue (.ytext "Hello") = false ∧
    ParagraphType.getFlatValue (Key.gen ⟨"text", 3⟩) exampleStore =
      .error (.typeMismatch (Key.gen ⟨"text", 3⟩)) :=
  ⟨rfl, rfl, C6_flat_value_validation.2.2.1 ParagraphType
    (Key.gen ⟨"text", 3⟩) exampleStore (.ytext "Hello") rfl rfl⟩

/-- C7: an array node stores its children in array order and
toJsonValue maps the collected child keys back in that same order,
returning exactly the original array, for every item list. -/
theorem C7_array_order :
    ∀ (t : String) (c : NT) (items : List JSON) (parentKey : Key)
      (s : EditorStore),
      NT.accepts (.arr t c) (.arr items) = true →
      ∃ k s₁,
        NT.storeNonRoot (.arr t c) (.arr items) parentKey s =
          (.ok k, s₁) ∧
        NT.toJsonValue (.arr t c) (Key.gen k) s₁ = .ok (.arr items) := by
  intro t c items parentKey s hacc
  obtain ⟨k, s₁, v, heq, _, _, _, _, _, _, _, _, _, hread⟩ :=
    storeNonRoot_spec (.arr t c) (.arr items) parentKey s hacc
  exact ⟨k, s₁, heq, hread s₁ (fun kk _ _ => rfl)⟩

/-- Witness for C7 on a permuted three-element array. -/
theorem C7_array_order_witness :
    NT.accepts (.arr "content" ParagraphType)
      (.arr [.obj "paragraph" (.str "b"), .obj "paragraph" (.str "a"),
        .obj "paragraph" (.str "c")]) = true ∧
    ∃ k s₁,
      NT.storeNonRoot (.arr "content" ParagraphType)
        (.arr [.obj "paragraph" (.str "b"), .obj "paragraph" (.str "a"),
          .obj "paragraph" (.str "c")]) Key.root EditorStore.init =
        (.ok k, s₁) ∧
      NT.toJsonValue (.arr "content" ParagraphType) (Key.gen k) s₁ =
        .ok (.arr [.obj "paragraph" (.str "b"),
          .obj "paragraph" (.str "a"), .obj "paragraph" (.str "c")]) :=
  ⟨rfl, C7_array_order "content" ParagraphType
    [.obj "paragraph" (.str "b"), .obj "paragraph" (.str "a"),
      .obj "paragraph" (.str "c")] Key.root EditorStore.init rfl⟩

/-- C8: the store-level getParentKey is total and returns null both
for a key with no parent entry and for a stored null, and in
particular for the root key, whose parent entry no store operation
ever writes; the root node type's getParentKey always returns null;
and the non-root accessor fails loudly with MissingParent on a key
whose parent is unset. -/
theorem C8_parent_null_semantics :
    (∀ (k : Key) (s : EditorStore), mapGet s.parentKeys k = none →
        EditorStore.getParentKey k s = none) ∧
    (∀ (k : Key) (s : EditorStore), mapGet s.parentKeys k = some none →
        EditorStore.getParentKey k s = none) ∧
    (∀ (c : NT) (j : JSON) (s : EditorStore), c.accepts j = true →
        mapGet s.parentKeys Key.root = none →
        EditorStore.getParentKey Key.root
          (RootType.storeRoot c j s).2 = none) ∧
    (∀ s : EditorStore, RootType.getParentKey s = none) ∧
    (∀ (k : Key) (s : EditorStore),
        EditorStore.getParentKey k s = none →
        NonRootNode.getParentKey k s = .error .missingParent) := by
  refine ⟨?_, ?_, ?_, fun s => rfl, ?_⟩
  · intro k s h
    simp [EditorStore.getParentKey, h]
  · intro k s h
    simp [EditorStore.getParentKey, h]
  · intro c j s hacc hnone
    obtain ⟨ck, s₀, w, heq, _, _, _, hfr, _, _, _, _, _, _⟩ :=
      storeNonRoot_spec c j Key.root s hacc
    have hrp : mapGet s₀.parentKeys Key.root = none := by
      rw [hfr.2.2.2.2.1]; exact hnone
    have hrw : RootType.storeRoot c j s = Transaction.insertRoot ck s₀ := by
      simp [RootType.storeRoot, heq]
    rw [hrw]
    by_cases hhas : EditorStore.has Key.root s₀ = true
    · simp [Transaction.insertRoot, hhas, EditorStore.getParentKey, hrp]
    · simp [Transaction.insertRoot, hhas, EditorStore.getParentKey,
        setValueEntry_parentKeys, hrp]
  · intro k s h
    simp [NonRootNode.getParentKey, h]

/-- Witness for C8: the absent key text:1 has a null store-level
parent, and the non-root accessor fails loudly on it. -/
theorem C8_parent_null_semantics_witness :
    EditorStore.getParentKey (Key.gen ⟨"text", 1⟩) exampleStore = none ∧
    NonRootNode.getParentKey (Key.gen ⟨"text", 1⟩) exampleStore =
      .error .missingParent :=
  ⟨rfl, C8_parent_null_semantics.2.2.2.2 (Key.gen ⟨"text", 1⟩)
    exampleStore rfl⟩

/-- C9: Transaction.insert always allocates the key
typeName:(lastKeyNumber+1); under the key-bound invariant this
number strictly exceeds the number of every generated key already
present in either map, so the new key is absent from the values map
and the insert never overwrites an existing key; and the invariant
is preserved by every store operation, so generated keys are never
reused across a run. -/
theorem C9_key_generation :
    (∀ (typeName : String) (parentKey : Key)
        (createValue :
          NRKey → EditorStore → Except Err FlatValue × EditorStore)
        (s : EditorStore) (k : NRKey) (s₁ : EditorStore),
        Transaction.insert typeName parentKey createValue s =
          (.ok k, s₁) →
        k = ⟨typeName, s.lastKeyNumber + 1⟩) ∧
    (∀ s : EditorStore, KeysBounded s →
        ∀ kk : NRKey,
          ((mapGet s.values (Key.gen kk)).isSome ∨
            (mapGet s.parentKeys (Key.gen kk)).isSome) →
          kk.num < s.lastKeyNumber + 1) ∧
    (∀ (s : EditorStore) (typeName : String), KeysBounded s →
        mapGet s.values
          (Key.gen ⟨typeName, s.lastKeyNumber + 1⟩) = none) ∧
    (∀ (nt : NT) (j : JSON) (parentKey : Key) (s : EditorStore)
        (k : NRKey) (s₁ : EditorStore), nt.accepts j = true →
        nt.storeNonRoot j parentKey s = (.ok k, s₁) →
        KeysBounded s → KeysBounded s₁) ∧
    (∀ (v : NRKey) (s : EditorStore) (r : Except Err Unit)
        (s₁ : EditorStore), Transaction.insertRoot v s = (r, s₁) →
        KeysBounded s → KeysBounded s₁) ∧
    (∀ (guard : FlatValue → Bool) (k : Key)
        (f : FlatValue → FlatValue) (s : EditorStore)
        (r : Except Err Unit) (s₁ : EditorStore),
        Transaction.update guard k f s = (r, s₁) →
        KeysBounded s → KeysBounded s₁) := by
  refine ⟨?_, ?_, ?_, ?_, ?_, ?_⟩
  · intro typeName parentKey createValue s k s₁ h
    simp only [Transaction.insert] at h
    rcases hcv : createValue ⟨typeName, s.lastKeyNumber + 1⟩
        { s with lastKeyNumber := s.lastKeyNumber + 1 } with ⟨r₀, s₂⟩
    rw [hcv] at h
    cases r₀ with
    | error e => simp at h
    | ok v =>
        rw [Prod.mk.injEq] at h
        injection h.1 with h₁
        exact h₁.symm
  · intro s hkb kk hmem
    have h := hkb kk hmem
    omega
  · intro s typeName hkb
    cases hm : mapGet s.values
        (Key.gen ⟨typeName, s.lastKeyNumber + 1⟩) with
    | none => rfl
    | some v =>
        have h := hkb ⟨typeName, s.lastKeyNumber + 1⟩
          (Or.inl (by rw [hm]; rfl))
        have h' : s.lastKeyNumber + 1 ≤ s.lastKeyNumber := h
        omega
  · intro nt j parentKey s k s₁ hacc heq hkb
    obtain ⟨k', s₁', v, heq', _, _, _, _, _, _, _, hkbi, _, _⟩ :=
      storeNonRoot_spec nt j parentKey s hacc
    rw [heq] at heq'
    injection heq' with h₁ h₂
    subst h₂
    exact hkbi hkb
  · intro v s r s₁ h hkb
    simp only [Transaction.insertRoot] at h
    by_cases hhas : EditorStore.has Key.root s = true
    · rw [if_pos hhas] at h
      injection h with h₁ h₂
      subst h₂
      exact hkb
    · rw [if_neg hhas] at h
      injection h with h₁ h₂
      subst h₂
      intro kk hkk
      apply hkb kk
      rcases hkk with h₁' | h₂'
      · refine Or.inl ?_
        rwa [setValueEntry_values,
          mapGet_mapSet_ne _ _ (fun hh => Key.noConfusion hh)] at h₁'
      · exact Or.inr (by rwa [setValueEntry_parentKeys] at h₂')
  · intro guard k f s r s₁ h hkb
    simp only [Transaction.update] at h
    cases hg : EditorStore.getValue guard k s with
    | error e =>
        simp only [hg] at h
        injection h with h₁ h₂
        subst h₂
        exact hkb
    | ok cur =>
        simp only [hg] at h
        injection h with h₁ h₂
        subst h₂
        have hsome : mapGet s.values k = some cur := by
          simp only [EditorStore.getValue] at hg
          cases hm : mapGet s.values k with
          | none => rw [hm] at hg; cases hg
          | some v₀ =>
              simp only [hm] at hg
              by_cases hgv : guard v₀ = true
              · rw [if_pos hgv] at hg
                injection hg with hg₁
                rw [hg₁]
              · rw [if_neg hgv] at hg
                cases hg
        intro kk hkk
        by_cases hek : Key.gen kk = k
        · apply hkb kk
          refine Or.inl ?_
          rw [hek, hsome]
          rfl
        · apply hkb kk
          rcases hkk with h₁' | h₂'
          · refine Or.inl ?_
            rwa [setValueEntry_values, mapGet_mapSet_ne _ _ hek] at h₁'
          · exact Or.inr (by rwa [setValueEntry_parentKeys] at h₂')

/-- Witness for C9: on a fresh store the next generated key is
absent from the values map. -/
theorem C9_key_generation_witness :
    KeysBounded EditorStore.init ∧
    mapGet EditorStore.init.values
      (Key.gen ⟨"text", EditorStore.init.lastKeyNumber + 1⟩) = none :=
  ⟨KeysBounded_init,
    C9_key_generation.2.2.1 EditorStore.init "text" KeysBounded_init⟩

/-- C10: inside Transaction.insert the parent entry of the new key
is written before its value entry, and the invariant that every
generated key present in the values map already has a parentKeys
entry holds at the intermediate state as well as after the value
write; the invariant is preserved by every store primitive, by every
storeNonRoot call, by whole update calls, and holds in the fresh
store, hence at every point of any sequence of transactions. -/
theorem C10_parent_before_value :
    (∀ (s : EditorStore) (kk : NRKey) (parentKey : Key) (v : FlatValue),
        ParentInv s →
        ParentInv (s.setParentKeyEntry (Key.gen kk) (some parentKey)) ∧
        ParentInv ((s.setParentKeyEntry (Key.gen kk)
          (some parentKey)).setValueEntry (Key.gen kk) v)) ∧
    (∀ (nt : NT) (j : JSON) (parentKey : Key) (s : EditorStore)
        (k : NRKey) (s₁ : EditorStore), nt.accepts j = true →
        nt.storeNonRoot j parentKey s = (.ok k, s₁) →
        ParentInv s → ParentInv s₁) ∧
    (∀ (v : NRKey) (s : EditorStore) (r : Except Err Unit)
        (s₁ : EditorStore), Transaction.insertRoot v s = (r, s₁) →
        ParentInv s → ParentInv s₁) ∧
    (∀ (guard : FlatValue → Bool) (k : Key)
        (f : FlatValue → FlatValue) (s : EditorStore)
        (r : Except Err Unit) (s₁ : EditorStore),
        Transaction.update guard k f s = (r, s₁) →
        ParentInv s → ParentInv s₁) ∧
    ParentInv EditorStore.init ∧
    (∀ (b : EditorStore → Except Err Unit × EditorStore)
        (s : EditorStore) (r : Except Err Unit) (s₁ : EditorStore),
        (∀ (s₀ : EditorStore) (r₀ : Except Err Unit)
          (s₀' : EditorStore),
          b s₀ = (r₀, s₀') → ParentInv s₀ → ParentInv s₀') →
        EditorStore.update b s = (r, s₁) →
        ParentInv s → ParentInv s₁) := by
  refine ⟨?_, ?_, ?_, ?_, ParentInv_init, ?_⟩
  · intro s kk parentKey v h
    exact ⟨parentInv_setParentKeyEntry h kk (some parentKey),
      h.insertPair kk (some parentKey) v⟩
  · intro nt j parentKey s k s₁ hacc heq hpi
    obtain ⟨k', s₁', v, heq', _, _, _, _, _, _, _, _, hpii, _⟩ :=
      storeNonRoot_spec nt j parentKey s hacc
    rw [heq] at heq'
    injection heq' with h₁ h₂
    subst h₂
    exact hpii hpi
  · intro v s r s₁ h hpi
    simp only [Transaction.insertRoot] at h
    by_cases hhas : EditorStore.has Key.root s = true
    · rw [if_pos hhas] at h
      injection h with h₁ h₂
      subst h₂
      exact hpi
    · rw [if_neg hhas] at h
      injection h with h₁ h₂
      subst h₂
      intro kk hkk
      rw [setValueEntry_parentKeys]
      apply hpi kk
      rwa [setValueEntry_values,
        mapGet_mapSet_ne _ _ (fun hh => Key.noConfusion hh)] at hkk
  · intro guard k f s r s₁ h hpi
    simp only [Transaction.update] at h
    cases hg : EditorStore.getValue guard k s with
    | error e =>
        simp only [hg] at h
        injection h with h₁ h₂
        subst h₂
        exact hpi
    | ok cur =>
        simp only [hg] at h
        injection h with h₁ h₂
        subst h₂
        have hsome : mapGet s.values k = some cur := by
          simp only [EditorStore.getValue] at hg
          cases hm : mapGet s.values k with
          | none => rw [hm] at hg; cases hg
          | some v₀ =>
              simp only [hm] at hg
              by_cases hgv : guard v₀ = true
              · rw [if_pos hgv] at hg
                injection hg with hg₁
                rw [hg₁]
              · rw [if_neg hgv] at hg
                cases hg
        intro kk hkk
        rw [setValueEntry_parentKeys]
        by_cases hek : Key.gen kk = k
        · apply hpi kk
          rw [hek, hsome]
          rfl
        · apply hpi kk
          rwa [setValueEntry_values, mapGet_mapSet_ne _ _ hek] at hkk
  · intro b s r s₁ hb h hpi
    simp only [EditorStore.update] at h
    by_cases htx : s.currentTransaction = true
    · rw [if_pos htx] at h
      exact hb s r s₁ h hpi
    · rw [if_neg htx] at h
      rcases hbs : b { s with currentTransaction := true } with ⟨r₀, s₂⟩
      rw [hbs] at h
      have hpi₂ : ParentInv s₂ := hb _ _ _ hbs hpi
      cases r₀ with
      | error e =>
          injection h with h₁ h₂
          subst h₂
          exact hpi₂
      | ok u =>
          injection h with h₁ h₂
          subst h₂
          exact hpi₂

/-- Witness for C10: the intermediate and final states of one
insert-shaped write pair on the fresh store keep the invariant. -/
theorem C10_parent_before_value_witness :
    ParentInv EditorStore.init ∧
    ParentInv (EditorStore.init.setParentKeyEntry
      (Key.gen ⟨"text", 1⟩) (some Key.root)) ∧
    ParentInv ((EditorStore.init.setParentKeyEntry
      (Key.gen ⟨"text", 1⟩) (some Key.root)).setValueEntry
      (Key.gen ⟨"text", 1⟩) (.ytext "w")) :=
  ⟨ParentInv_init,
    (C10_parent_before_value.1 EditorStore.init ⟨"text", 1⟩ Key.root
      (.ytext "w") ParentInv_init).1,
    (C10_parent_before_value.1 EditorStore.init ⟨"text", 1⟩ Key.root
      (.ytext "w") ParentInv_init).2⟩

end EditorWithMixins
